import Mathlib

/-!
Verification of the SOW-analysis / team-execution pipeline
(`app/execute_sowFile_byTeam.py`, `app/AI_Team_App.py`, `app/test.py`).

The Python code is shallowly embedded as executable Lean definitions:
strings are `String` (or `List Char` where Python slice/index arithmetic
matters), Python dicts that are built by insertion and iterated in
insertion order are association lists `List (String × α)`, and the
outcome of one external LLM call for a chunk is an `Option` value
(`none` = the call failed or its payload did not parse; `some m` = the
parsed role→task-list mapping).
-/

namespace SowPipeline

/-- First-match lookup in an association list, mirroring Python `d[k]` /
`k in d` on dicts whose keys are the roles. -/
def lookupKey {α : Type} (r : String) : List (String × α) → Option α
  | [] => none
  | p :: ps => if p.1 = r then some p.2 else lookupKey r ps

/-- Python `list(dict.fromkeys(xs))`: iterate `xs`, keeping only the first
occurrence of each string (insertion-ordered dict keys). -/
def dictFromKeys (l : List String) : List String :=
  l.foldl (fun a x => if x ∈ a then a else a ++ [x]) []

/-- The static tool catalog `TOOL_MAPPING` (only the tool names matter for
the model; each value is a fixed BaseTool instance with that `name`). -/
def TOOL_MAPPING : List String :=
  ["Cursor", "GitHub", "Postman", "Python SDK", "Node.js SDK"]

/-- `TeamMember` from `execute_sowFile_byTeam.py`; `tools` stores the
resolved tool names. -/
structure TeamMember where
  role : String
  name : String
  description : String
  objectives : List String
  tools : List String
deriving DecidableEq, Repr

/-- `TeamMember.__init__`: keeps only tool names found in `TOOL_MAPPING`
(`[TOOL_MAPPING[tool] for tool in tools if tool in TOOL_MAPPING]`). -/
def mkTeamMember (role name description : String) (objectives tools : List String) :
    TeamMember :=
  ⟨role, name, description, objectives, tools.filter (fun t => decide (t ∈ TOOL_MAPPING))⟩

/-- Update the value stored at key `k` by `f`, leaving other entries
unchanged (`tasks_by_role[k] = f(tasks_by_role[k])` on a dict that holds
`k`; keys and their order are untouched). -/
def updateVal (k : String) (f : List String → List String)
    (a : List (String × List String)) : List (String × List String) :=
  a.map (fun q => if q.1 = k then (q.1, f q.2) else q)

/-- One chunk's merge step from `analyze_and_generate_tasks`:
`for role, tasks in chunk_tasks.items(): if role in tasks_by_role:
tasks_by_role[role].extend(tasks)`. -/
def mergeChunkTasks (a : List (String × List String))
    (chunk : List (String × List String)) : List (String × List String) :=
  chunk.foldl
    (fun a p =>
      if p.1 ∈ a.map Prod.fst then updateVal p.1 (fun v => v ++ p.2) a else a) a

/-- `tasks_by_role = {member.role: [] for member in self.team_members}`
(dict comprehension: insertion-ordered keys with duplicates collapsed). -/
def initTasks (members : List TeamMember) : List (String × List String) :=
  (dictFromKeys (members.map TeamMember.role)).map (fun r => (r, ([] : List String)))

/-- The per-chunk loop of `analyze_and_generate_tasks`: a chunk whose
response failed (API error or `json.JSONDecodeError`) is logged and
skipped (`except ...: print(...)`), a parsed chunk is merged. -/
def processChunks (a : List (String × List String))
    (responses : List (Option (List (String × List String)))) :
    List (String × List String) :=
  responses.foldl
    (fun a resp =>
      match resp with
      | some chunk => mergeChunkTasks a chunk
      | none => a) a

/-- The final loop of `analyze_and_generate_tasks`:
`for member in self.team_members: if member.role in tasks_by_role:
tasks_by_role[member.role] = list(dict.fromkeys(tasks_by_role[member.role]))`. -/
def dedupePass (members : List TeamMember) (a : List (String × List String)) :
    List (String × List String) :=
  members.foldl
    (fun a m =>
      if m.role ∈ a.map Prod.fst then updateVal m.role dictFromKeys a else a) a

/-- `SOWAnalyzer.analyze_and_generate_tasks`, as a function of the roster
and of the per-chunk parsed responses (in chunk index order). -/
def analyze_and_generate_tasks (members : List TeamMember)
    (responses : List (Option (List (String × List String)))) :
    List (String × List String) :=
  dedupePass members (processChunks (initTasks members) responses)

/-- The raw tasks contributed to role `r` by one parsed chunk response, in
iteration order (used to state what the merge accumulates). -/
def tasksForRole (r : String) : List (String × List String) → List String
  | [] => []
  | p :: ps => if p.1 = r then p.2 ++ tasksForRole r ps else tasksForRole r ps

/-- All raw tasks for role `r` across the successfully parsed chunks, in
chunk index order (the accumulated list before the final dedupe). -/
def accumulatedTasks (r : String) :
    List (Option (List (String × List String))) → List String
  | [] => []
  | none :: rest => accumulatedTasks r rest
  | some chunk :: rest => tasksForRole r chunk ++ accumulatedTasks r rest

/-- Outcome of `analyze_sow` in `AI_Team_App.py`: either the failure branch
(`if not tasks or not any(tasks.values())`, reported via `st.error` and
`return False`) or success with the generated tasks. -/
inductive AnalyzeSowOutcome where
  | failure : AnalyzeSowOutcome
  | success : List (String × List String) → AnalyzeSowOutcome
deriving DecidableEq, Repr

/-- `analyze_sow` (`AI_Team_App.py`): runs the analysis and fails when the
result is an empty dict or every role's list is empty
(`not tasks or not any(tasks.values())`). -/
def analyze_sow (members : List TeamMember)
    (responses : List (Option (List (String × List String)))) : AnalyzeSowOutcome :=
  let tasks := analyze_and_generate_tasks members responses
  if tasks.isEmpty || tasks.all (fun p => p.2.isEmpty) then .failure
  else .success tasks

/-- Python index normalization for slices and `str.rfind` bounds on a
string of length `n`: negative indices count from the end and are clamped
at 0, nonnegative ones are clamped at `n`. -/
def pyNorm (n : Nat) (i : Int) : Nat :=
  if i < 0 then ((n : Int) + i).toNat else min i.toNat n

/-- Python `text[i:j]` on a string represented as `List Char`. -/
def pySlice (text : List Char) (i j : Int) : List Char :=
  (text.take (pyNorm text.length j)).drop (pyNorm text.length i)

/-- Python `text.rfind(c, i, j)` for a single-character needle: the largest
index `k` with `i' ≤ k < j'` (normalized bounds) and `text[k] = c`, else
`-1`. -/
def pyRfind (text : List Char) (c : Char) (i j : Int) : Int :=
  let a := pyNorm text.length i
  let b := pyNorm text.length j
  match ((List.range text.length).filter
      (fun k => decide (a ≤ k) && decide (k < b) && (text.getD k ' ' == c))).getLast? with
  | some k => (k : Int)
  | none => -1

/-- The end-of-chunk computation inside the `while` loop of
`split_text_into_chunks`: hard end `start + max_chunk_size`; if that falls
strictly inside the text, look for the last `'.'` or `'\n'` in the last
200 characters (`text.rfind(c, end - 200, end)`, a hardcoded 200) and move
the boundary to just after it when `break_point > end - 200`. -/
def chunkEnd (text : List Char) (maxSize : Nat) (start : Int) : Int :=
  let endHard : Int := start + (maxSize : Int)
  if endHard < (text.length : Int) then
    let lastPeriod := pyRfind text '.' (endHard - 200) endHard
    let lastNewline := pyRfind text '\n' (endHard - 200) endHard
    let breakPoint := max lastPeriod lastNewline
    if breakPoint > endHard - 200 then breakPoint + 1 else endHard
  else endHard

/-- The `while start < len(text)` loop of `split_text_into_chunks`, with an
explicit fuel bound (the Python loop need not terminate for adversarial
parameters; `none` means the fuel ran out before the loop exited). Each
iteration appends `text[start:end]` and sets `start = end - overlap`. -/
def splitLoop (text : List Char) (maxSize overlap : Nat) :
    Nat → Int → List (List Char) → Option (List (List Char))
  | 0, _, _ => none
  | fuel + 1, start, chunks =>
    if start < (text.length : Int) then
      let e := chunkEnd text maxSize start
      splitLoop text maxSize overlap fuel (e - (overlap : Int))
        (chunks ++ [pySlice text start e])
    else some chunks

/-- `split_text_into_chunks(text, max_chunk_size, overlap)` (defaults in
the source: 8000 and 200): a single chunk when the text fits, otherwise
the windowed loop. Fuel `text.length + 1` is enough whenever the loop
terminates by advancing at least one character per iteration. -/
def split_text_into_chunks (text : List Char) (maxSize overlap : Nat) :
    Option (List (List Char)) :=
  if text.length ≤ maxSize then some [text]
  else splitLoop text maxSize overlap (text.length + 1) 0 []

/-- Spec-side chunk-boundary computation, with the lookback-window length
`w` as a parameter. Modelled from the spec: "searches backward up to
`overlap` characters for the last sentence terminator or line break; if
found within that lookback window, the chunk boundary is moved to just
after that character, else the hard boundary at `max_size` is used" — the
claim under test instantiates `w` with the `overlap` argument, the code
hardcodes 200. -/
def chunkEndLookback (w : Nat) (text : List Char) (maxSize : Nat) (start : Int) : Int :=
  let endHard : Int := start + (maxSize : Int)
  if endHard < (text.length : Int) then
    let lastPeriod := pyRfind text '.' (endHard - (w : Int)) endHard
    let lastNewline := pyRfind text '\n' (endHard - (w : Int)) endHard
    let breakPoint := max lastPeriod lastNewline
    if breakPoint > endHard - (w : Int) then breakPoint + 1 else endHard
  else endHard

/-- Spec-side chunking loop with lookback-window length `w` (see
`chunkEndLookback`). -/
def splitLoopLookback (w : Nat) (text : List Char) (maxSize overlap : Nat) :
    Nat → Int → List (List Char) → Option (List (List Char))
  | 0, _, _ => none
  | fuel + 1, start, chunks =>
    if start < (text.length : Int) then
      let e := chunkEndLookback w text maxSize start
      splitLoopLookback w text maxSize overlap fuel (e - (overlap : Int))
        (chunks ++ [pySlice text start e])
    else some chunks

/-- Spec-side `split` with lookback-window length `w` (the claim under
test says `w = overlap`; the source hardcodes `w = 200`). -/
def split_lookback (w : Nat) (text : List Char) (maxSize overlap : Nat) :
    Option (List (List Char)) :=
  if text.length ≤ maxSize then some [text]
  else splitLoopLookback w text maxSize overlap (text.length + 1) 0 []

/-- Reassemble a chunk list as the claim describes: the first chunk, then
every later chunk with its first `overlap` characters removed. -/
def reconTail (overlap : Nat) : List (List Char) → List Char
  | [] => []
  | c :: cs => c.drop overlap ++ reconTail overlap cs

/-- "The first chunk followed by each subsequent chunk with its first
`overlap` characters removed" — the claimed reconstruction of the source
text. -/
def reconstructChunks (overlap : Nat) : List (List Char) → List Char
  | [] => []
  | c :: cs => c ++ reconTail overlap cs

/-- A crewai `Agent` as constructed by `TeamAgentCreator.create_agent`
(only the observable constructor arguments are modelled; `tools` stores
the tool names). -/
structure CrewAgent where
  role : String
  goal : String
  backstory : String
  tools : List String
deriving DecidableEq, Repr

/-- `TeamAgentCreator.create_agent(member)`. -/
def create_agent (m : TeamMember) : CrewAgent :=
  { role := m.role
    goal := "Successfully complete all assigned tasks for the " ++ m.role ++ " role"
    backstory := m.description ++ ". My objectives are: " ++ String.intercalate ", " m.objectives
    tools := m.tools }

/-- Dict insertion `d[k] = v`: overwrite in place if the key exists, else
append at the end (Python dict insertion order). -/
def dictInsert {α : Type} (k : String) (v : α) (d : List (String × α)) :
    List (String × α) :=
  if k ∈ d.map Prod.fst then d.map (fun p => if p.1 = k then (k, v) else p)
  else d ++ [(k, v)]

/-- `TeamAgentCreator.create_agents`: one `Agent` per roster member,
stored under `self.agents[member.role]` — every member gets an agent,
whether or not any task was generated for its role. -/
def create_agents (members : List TeamMember) : List (String × CrewAgent) :=
  members.foldl (fun d m => dictInsert m.role (create_agent m) d) []

/-- A crewai `Task` as constructed in `TeamAgentCreator.assign_tasks`
(the bound agent is identified by its role). -/
structure CrewTask where
  description : String
  expected_output : String
  agentRole : String
deriving DecidableEq, Repr

/-- `Task(description=..., expected_output=f"Complete the task: {...}",
agent=self.agents[role])`. -/
def mkCrewTask (role desc : String) : CrewTask :=
  ⟨desc, "Complete the task: " ++ desc, role⟩

/-- `TeamAgentCreator.assign_tasks(tasks_by_role)`: for each role of the
task dict that has an agent, store one `Task` per task string under
`self.tasks[role]` (an entry is created even when the list is empty). -/
def assign_tasks (agents : List (String × CrewAgent))
    (tasksByRole : List (String × List String)) : List (String × List CrewTask) :=
  tasksByRole.foldl
    (fun d p =>
      if p.1 ∈ agents.map Prod.fst then dictInsert p.1 (p.2.map (mkCrewTask p.1)) d
      else d) []

/-- `TeamAgentCreator.get_all_tasks`: all tasks of all roles, flattened in
dict insertion order. -/
def get_all_tasks : List (String × List CrewTask) → List CrewTask
  | [] => []
  | p :: ps => p.2 ++ get_all_tasks ps

/-- What `execute_team` hands to `Crew(...)`: `agents=list(agents.values())`,
`tasks=agent_creator.get_all_tasks()`, `process=Process.sequential`. -/
structure ExecutionPlan where
  agents : List CrewAgent
  tasks : List CrewTask
  sequentialProcess : Bool
deriving DecidableEq, Repr

/-- The plan-construction part of `execute_team`: create agents for the
whole roster, assign the tasks, and hand everything to the crew. -/
def execute_team_plan (members : List TeamMember)
    (tasks : List (String × List String)) : ExecutionPlan :=
  let agents := create_agents members
  let creatorTasks := assign_tasks agents tasks
  ⟨agents.map Prod.snd, get_all_tasks creatorTasks, true⟩

/-- JSON-like values, for the shape of the persisted / returned records. -/
inductive JVal where
  | jstr : String → JVal
  | jnum : Nat → JVal
  | jarr : List JVal → JVal
  | jobj : List (String × JVal) → JVal

/-- The per-agent entry written by `save_results_to_json`: exactly
`name` (the agent's `role` attribute), `goal`, `backstory`, `tools` —
there is no task-count field in the file. -/
def agentEntryFile (a : CrewAgent) : List (String × JVal) :=
  [("name", .jstr a.role), ("goal", .jstr a.goal),
   ("backstory", .jstr a.backstory), ("tools", .jarr (a.tools.map .jstr))]

/-- The `output` dict of `save_results_to_json(agents, tasks, result)`
(the record serialized to `result.json`). -/
def save_results_to_json (agents : List (String × CrewAgent))
    (tasks : List (String × List String)) (result : String) : JVal :=
  .jobj
    [("agents", .jobj (agents.map (fun p => (p.1, .jobj (agentEntryFile p.2))))),
     ("tasks", .jobj (tasks.map (fun p => (p.1, .jarr (p.2.map .jstr))))),
     ("execution_result", .jstr result)]

/-- The per-agent entry of the `execution_results` dict returned by
`execute_team`: the four file fields plus
`"assigned_tasks": len(agent_creator.tasks.get(role, []))`. -/
def agentEntryReturned (a : CrewAgent) (role : String)
    (creatorTasks : List (String × List CrewTask)) : List (String × JVal) :=
  agentEntryFile a ++
    [("assigned_tasks", .jnum ((lookupKey role creatorTasks).getD []).length)]

/-- The `execution_results` record returned by `execute_team` to its
caller. -/
def execute_team_results (members : List TeamMember)
    (tasks : List (String × List String)) (result : String) : JVal :=
  let agents := create_agents members
  let creatorTasks := assign_tasks agents tasks
  .jobj
    [("agents", .jobj (agents.map
        (fun p => (p.1, .jobj (agentEntryReturned p.2 p.1 creatorTasks))))),
     ("tasks", .jobj (tasks.map (fun p => (p.1, .jarr (p.2.map .jstr))))),
     ("execution_result", .jstr result)]

/-- `needle` occurs at the start of `haystack` (character-wise). -/
def beginsWith : List Char → List Char → Bool
  | [], _ => true
  | _ :: _, [] => false
  | a :: as, b :: bs => a == b && beginsWith as bs

/-- Python `needle in haystack` on strings: `needle` occurs as a
contiguous substring of `haystack`. -/
def containsSub (needle : List Char) : List Char → Bool
  | [] => beginsWith needle []
  | c :: cs => beginsWith needle (c :: cs) || containsSub needle cs

/-- Python `needle in msg` for `String`s. -/
def pyIn (needle msg : String) : Bool :=
  containsSub needle.toList msg.toList

/-- Scanner for `pySplit`: walk the text left to right, splitting at each
(non-overlapping) occurrence of the separator `sepHead :: sepTail`; `acc`
holds the reversed characters of the piece being built. The `fuel`
argument (instantiated with the text length, which every step shrinks by
at least one) only makes the recursion structural. -/
def splitSepAux (sepHead : Char) (sepTail : List Char) :
    Nat → List Char → List Char → List (List Char)
  | _, [], acc => [acc.reverse]
  | 0, l, acc => [acc.reverse ++ l]
  | fuel + 1, c :: cs, acc =>
    if beginsWith (sepHead :: sepTail) (c :: cs) then
      acc.reverse :: splitSepAux sepHead sepTail fuel (cs.drop sepTail.length) []
    else splitSepAux sepHead sepTail fuel cs (c :: acc)

/-- Python `msg.split(sep)` for a non-empty separator (Python raises on an
empty separator; that case is mapped to the whole string). -/
def pySplit (sep msg : String) : List String :=
  match sep.toList with
  | [] => [msg]
  | c :: cs => (splitSepAux c cs msg.toList.length msg.toList []).map (fun l => String.mk l)

/-- Python `msg.lower()` (ASCII case folding suffices for the log
messages the handler inspects). -/
def pyLower (msg : String) : String :=
  String.mk (msg.toList.map Char.toLower)

/-- Python `msg.split()[0]`: the first whitespace-delimited token. -/
def firstToken (msg : String) : String :=
  String.mk ((msg.toList.dropWhile Char.isWhitespace).takeWhile
    (fun c => !c.isWhitespace))

/-- One per-role entry of the `team_status` dict in `test.py`:
`{"status": ..., "current_task": ...}`. -/
structure RoleStatus where
  status : String
  currentTask : Option String
deriving DecidableEq, Repr

/-- `team_status = {role: {"status": "⏳ Waiting", "current_task": None}
for role in st.session_state.tasks.keys()}`. -/
def initTeamStatus (roles : List String) : List (String × RoleStatus) :=
  roles.map (fun r => (r, ⟨"⏳ Waiting", none⟩))

/-- Set only the `status` field of role `r` (`team_status[role]["status"] = s`;
a `KeyError` on an unknown role is swallowed by the logging machinery, so
the net effect on the dict is the identity). -/
def setStatus (r s : String) (d : List (String × RoleStatus)) :
    List (String × RoleStatus) :=
  d.map (fun p => if p.1 = r then (p.1, ⟨s, p.2.currentTask⟩) else p)

/-- Set both fields of role `r` (the `"Assigned task to"` branch). -/
def setStatusTask (r s : String) (t : Option String)
    (d : List (String × RoleStatus)) : List (String × RoleStatus) :=
  d.map (fun p => if p.1 = r then (p.1, ⟨s, t⟩) else p)

/-- `StreamlitLogHandler.emit` (`test.py`): the string-matching update of
`team_status` for one log record `msg`. The three recognized patterns are
`"Created agent for"` → `"✅ Ready"`, `"Assigned task to"` →
`"🔄 Working"` with the task text, and `"completed task"` (case-folded) →
`"✅ Task Completed"`; any other message leaves the dict unchanged. -/
def emitUpdate (d : List (String × RoleStatus)) (msg : String) :
    List (String × RoleStatus) :=
  if pyIn "Created agent for" msg then
    let role := (pySplit ":" ((pySplit "Created agent for " msg).getD 1 "")).getD 0 ""
    setStatus role "✅ Ready" d
  else if pyIn "Assigned task to" msg then
    let role := (pySplit ":" ((pySplit "Assigned task to " msg).getD 1 "")).getD 0 ""
    let task := (pySplit ": " msg).getD 1 ""
    setStatusTask role "🔄 Working" (some task) d
  else if pyIn "completed task" (pyLower msg) then
    setStatus (firstToken msg) "✅ Task Completed" d
  else d

/-- Feed a sequence of log messages through `StreamlitLogHandler.emit`. -/
def trackMessages (roles : List String) (msgs : List String) :
    List (String × RoleStatus) :=
  msgs.foldl emitUpdate (initTeamStatus roles)

/-- The four status strings the handler can ever store (there is no
failed status of any kind). -/
def handlerStatusStrings : List String :=
  ["⏳ Waiting", "✅ Ready", "🔄 Working", "✅ Task Completed"]

/-- The log-message encodings of the scenario's six progress events, as
emitted by `create_agent` (`logging.info(f"Created agent for {role}:
{name}")`), `assign_tasks` (`logging.info(f"Assigned task to {role}:
{desc}")`), and free-form completion/failure messages for the remaining
two event kinds (the source has no dedicated emitter for them). -/
def scenarioMessages : List String :=
  ["Created agent for R1: Alice",
   "Created agent for R2: Bob",
   "Assigned task to R1: t1",
   "R1 completed task t1",
   "Assigned task to R1: t2",
   "R1 failed task t2"]

/-- Top-level field names of a `JVal` object. -/
def objFieldNames : JVal → List String
  | .jobj fs => fs.map Prod.fst
  | _ => []

/-- Field lookup inside a `JVal` object. -/
def objField (k : String) : JVal → Option JVal
  | .jobj fs => lookupKey k fs
  | _ => none

/-- The field names of the agent entry stored under `role` inside the
`"agents"` object of a result record. -/
def agentFieldNames (j : JVal) (role : String) : Option (List String) :=
  ((objField "agents" j).bind (objField role)).map objFieldNames

/-! ### Lemmas about the stable dedupe `dictFromKeys` -/

lemma foldlDedup_decomp (l : List String) : ∀ acc : List String,
    ∃ s : List String,
      List.foldl (fun a x => if x ∈ a then a else a ++ [x]) acc l = acc ++ s ∧
      s.Sublist l ∧ (∀ y ∈ s, y ∉ acc) ∧ s.Nodup ∧ (∀ y ∈ l, y ∈ acc ∨ y ∈ s) := by
  induction l with
  | nil =>
    intro acc
    exact ⟨[], by simp, by simp, by simp, by simp, by simp⟩
  | cons x xs ih =>
    intro acc
    by_cases hx : x ∈ acc
    · obtain ⟨s, h1, h2, h3, h4, h5⟩ := ih acc
      refine ⟨s, ?_, List.Sublist.cons _ h2, h3, h4, ?_⟩
      · simpa [List.foldl_cons, if_pos hx] using h1
      · intro y hy
        rcases List.mem_cons.mp hy with rfl | hy
        · exact Or.inl hx
        · exact h5 y hy
    · obtain ⟨s, h1, h2, h3, h4, h5⟩ := ih (acc ++ [x])
      refine ⟨x :: s, ?_, List.Sublist.cons₂ _ h2, ?_, ?_, ?_⟩
      · rw [List.foldl_cons, if_neg hx, h1, List.append_assoc]
        rfl
      · intro y hy
        rcases List.mem_cons.mp hy with rfl | hy
        · exact hx
        · intro hmem
          exact h3 y hy (List.mem_append_left _ hmem)
      · refine List.nodup_cons.mpr ⟨?_, h4⟩
        intro hxs
        exact h3 x hxs (List.mem_append_right _ (List.mem_singleton.mpr rfl))
      · intro y hy
        rcases List.mem_cons.mp hy with rfl | hy
        · exact Or.inr (List.mem_cons_self _ _)
        · rcases h5 y hy with h | h
          · rcases List.mem_append.mp h with h' | h'
            · exact Or.inl h'
            · exact Or.inr (List.mem_cons.mpr (Or.inl (List.mem_singleton.mp h')))
          · exact Or.inr (List.mem_cons_of_mem _ h)

lemma sublist_dictFromKeys (l : List String) : (dictFromKeys l).Sublist l := by
  obtain ⟨s, h1, h2, -, -, -⟩ := foldlDedup_decomp l []
  rw [dictFromKeys, h1]
  simpa using h2

lemma nodup_dictFromKeys (l : List String) : (dictFromKeys l).Nodup := by
  obtain ⟨s, h1, -, -, h4, -⟩ := foldlDedup_decomp l []
  rw [dictFromKeys, h1]
  simpa using h4

lemma mem_dictFromKeys {y : String} {l : List String} :
    y ∈ dictFromKeys l ↔ y ∈ l := by
  obtain ⟨s, h1, h2, -, -, h5⟩ := foldlDedup_decomp l []
  rw [dictFromKeys, h1]
  constructor
  · intro hy
    exact h2.mem (by simpa using hy)
  · intro hy
    rcases h5 y hy with h | h
    · simp at h
    · simpa using h

lemma foldlDedup_of_disjoint (l : List String) : ∀ acc : List String, l.Nodup →
    (∀ y ∈ l, y ∉ acc) →
    List.foldl (fun a x => if x ∈ a then a else a ++ [x]) acc l = acc ++ l := by
  induction l with
  | nil => intro acc _ _; simp
  | cons x xs ih =>
    intro acc hnd hdisj
    have hx : x ∉ acc := hdisj x (List.mem_cons_self _ _)
    rw [List.foldl_cons, if_neg hx,
      ih (acc ++ [x]) (List.nodup_cons.mp hnd).2 ?_, List.append_assoc]
    · rfl
    · intro y hy hmem
      rcases List.mem_append.mp hmem with h | h
      · exact hdisj y (List.mem_cons_of_mem _ hy) h
      · exact (List.nodup_cons.mp hnd).1 (List.mem_singleton.mp h ▸ hy)

lemma dictFromKeys_of_nodup {l : List String} (h : l.Nodup) : dictFromKeys l = l := by
  rw [dictFromKeys, foldlDedup_of_disjoint l [] h (by simp)]
  rfl

lemma dictFromKeys_idem (l : List String) :
    dictFromKeys (dictFromKeys l) = dictFromKeys l :=
  dictFromKeys_of_nodup (nodup_dictFromKeys l)

/-! ### Lemmas about association-list lookup and update -/

lemma lookupKey_isSome_iff {α : Type} {r : String} {a : List (String × α)} :
    (lookupKey r a).isSome = true ↔ r ∈ a.map Prod.fst := by
  induction a with
  | nil => simp [lookupKey]
  | cons p ps ih =>
    by_cases h : p.1 = r
    · simp [lookupKey, h]
    · simp [lookupKey, h, ih, Ne.symm h]

lemma lookupKey_mem_keys {α : Type} {r : String} {a : List (String × α)} {v : α}
    (h : lookupKey r a = some v) : r ∈ a.map Prod.fst :=
  lookupKey_isSome_iff.mp (by rw [h]; rfl)

lemma lookupKey_eq_none {α : Type} {r : String} {a : List (String × α)}
    (h : r ∉ a.map Prod.fst) : lookupKey r a = none := by
  cases hv : lookupKey r a with
  | none => rfl
  | some v => exact absurd (lookupKey_mem_keys hv) h

lemma keys_updateVal (k : String) (f : List String → List String)
    (a : List (String × List String)) :
    (updateVal k f a).map Prod.fst = a.map Prod.fst := by
  induction a with
  | nil => rfl
  | cons p ps ih =>
    by_cases h : p.1 = k
    · simpa [updateVal, h] using ih
    · simpa [updateVal, h] using ih

lemma lookupKey_updateVal_self (k : String) (f : List String → List String)
    (a : List (String × List String)) :
    lookupKey k (updateVal k f a) = (lookupKey k a).map f := by
  induction a with
  | nil => rfl
  | cons p ps ih =>
    by_cases h : p.1 = k
    · simp [updateVal, lookupKey, h]
    · simpa [updateVal, lookupKey, h] using ih

lemma lookupKey_updateVal_ne {r k : String} (h : r ≠ k)
    (f : List String → List String) (a : List (String × List String)) :
    lookupKey r (updateVal k f a) = lookupKey r a := by
  induction a with
  | nil => rfl
  | cons p ps ih =>
    by_cases hp : p.1 = k
    · simpa [updateVal, lookupKey, hp, Ne.symm h] using ih
    · by_cases hr : p.1 = r
      · simp [updateVal, lookupKey, hp, hr, h]
      · simpa [updateVal, lookupKey, hp, hr] using ih

/-! ### Lemmas about the chunk-merge pipeline -/

lemma mergeChunkTasks_cons (a : List (String × List String))
    (p : String × List String) (ps : List (String × List String)) :
    mergeChunkTasks a (p :: ps) =
      mergeChunkTasks
        (if p.1 ∈ a.map Prod.fst then updateVal p.1 (fun v => v ++ p.2) a else a)
        ps := rfl

lemma keys_mergeChunkTasks (c : List (String × List String)) :
    ∀ a, (mergeChunkTasks a c).map Prod.fst = a.map Prod.fst := by
  induction c with
  | nil => intro a; rfl
  | cons p ps ih =>
    intro a
    rw [mergeChunkTasks_cons]
    by_cases hp : p.1 ∈ a.map Prod.fst
    · rw [if_pos hp, ih, keys_updateVal]
    · rw [if_neg hp, ih]

lemma lookupKey_mergeChunkTasks (c : List (String × List String)) :
    ∀ (a : List (String × List String)) (v : List String) (r : String),
      lookupKey r a = some v →
      lookupKey r (mergeChunkTasks a c) = some (v ++ tasksForRole r c) := by
  induction c with
  | nil =>
    intro a v r h
    simpa [mergeChunkTasks, tasksForRole] using h
  | cons p ps ih =>
    intro a v r h
    rw [mergeChunkTasks_cons]
    by_cases hpr : p.1 = r
    · have hmem : p.1 ∈ a.map Prod.fst := hpr ▸ lookupKey_mem_keys h
      rw [if_pos hmem]
      have h2 : lookupKey r (updateVal p.1 (fun v => v ++ p.2) a) = some (v ++ p.2) := by
        rw [hpr, lookupKey_updateVal_self, h]
        rfl
      rw [ih _ _ _ h2]
      simp [tasksForRole, hpr, List.append_assoc]
    · have harr : r ≠ p.1 := fun hh => hpr hh.symm
      have h2 : lookupKey r
          (if p.1 ∈ a.map Prod.fst then updateVal p.1 (fun v => v ++ p.2) a else a) =
          some v := by
        by_cases hmem : p.1 ∈ a.map Prod.fst
        · rw [if_pos hmem, lookupKey_updateVal_ne harr]
          exact h
        · rw [if_neg hmem]
          exact h
      rw [ih _ _ _ h2]
      simp [tasksForRole, hpr]

lemma processChunks_cons_some (a : List (String × List String))
    (c : List (String × List String))
    (rs : List (Option (List (String × List String)))) :
    processChunks a (some c :: rs) = processChunks (mergeChunkTasks a c) rs := rfl

lemma processChunks_cons_none (a : List (String × List String))
    (rs : List (Option (List (String × List String)))) :
    processChunks a (none :: rs) = processChunks a rs := rfl

lemma keys_processChunks (rs : List (Option (List (String × List String)))) :
    ∀ a, (processChunks a rs).map Prod.fst = a.map Prod.fst := by
  induction rs with
  | nil => intro a; rfl
  | cons o rest ih =>
    intro a
    cases o with
    | none => rw [processChunks_cons_none, ih]
    | some c => rw [processChunks_cons_some, ih, keys_mergeChunkTasks]

lemma lookupKey_processChunks (rs : List (Option (List (String × List String)))) :
    ∀ (a : List (String × List String)) (v : List String) (r : String),
      lookupKey r a = some v →
      lookupKey r (processChunks a rs) = some (v ++ accumulatedTasks r rs) := by
  induction rs with
  | nil =>
    intro a v r h
    simpa [processChunks, accumulatedTasks] using h
  | cons o rest ih =>
    intro a v r h
    cases o with
    | none =>
      rw [processChunks_cons_none, ih _ _ _ h]
      simp [accumulatedTasks]
    | some c =>
      rw [processChunks_cons_some, ih _ _ _ (lookupKey_mergeChunkTasks c a v r h)]
      simp [accumulatedTasks, List.append_assoc]

lemma dedupePass_cons (m : TeamMember) (ms : List TeamMember)
    (a : List (String × List String)) :
    dedupePass (m :: ms) a =
      dedupePass ms
        (if m.role ∈ a.map Prod.fst then updateVal m.role dictFromKeys a else a) := rfl

lemma keys_dedupePass (ms : List TeamMember) :
    ∀ a, (dedupePass ms a).map Prod.fst = a.map Prod.fst := by
  induction ms with
  | nil => intro a; rfl
  | cons m ms' ih =>
    intro a
    rw [dedupePass_cons]
    by_cases hp : m.role ∈ a.map Prod.fst
    · rw [if_pos hp, ih, keys_updateVal]
    · rw [if_neg hp, ih]

lemma lookupKey_dedupePass (ms : List TeamMember) :
    ∀ (a : List (String × List String)) (v : List String) (r : String),
      lookupKey r a = some v →
      lookupKey r (dedupePass ms a) =
        some (if r ∈ ms.map TeamMember.role then dictFromKeys v else v) := by
  induction ms with
  | nil =>
    intro a v r h
    simpa [dedupePass] using h
  | cons m ms' ih =>
    intro a v r h
    rw [dedupePass_cons]
    by_cases hmr : m.role = r
    · have hmem : m.role ∈ a.map Prod.fst := hmr ▸ lookupKey_mem_keys h
      rw [if_pos hmem]
      have h2 : lookupKey r (updateVal m.role dictFromKeys a) = some (dictFromKeys v) := by
        rw [hmr, lookupKey_updateVal_self, h]
        rfl
      rw [ih _ _ _ h2]
      simp [hmr, dictFromKeys_idem]
    · have harr : r ≠ m.role := fun hh => hmr hh.symm
      have h2 : lookupKey r
          (if m.role ∈ a.map Prod.fst then updateVal m.role dictFromKeys a else a) =
          some v := by
        by_cases hmem : m.role ∈ a.map Prod.fst
        · rw [if_pos hmem, lookupKey_updateVal_ne harr]
          exact h
        · rw [if_neg hmem]
          exact h
      rw [ih _ _ _ h2]
      simp [harr]

lemma lookupKey_pairNil (l : List String) (r : String) :
    lookupKey r (l.map (fun x => (x, ([] : List String)))) =
      if r ∈ l then some [] else none := by
  induction l with
  | nil => simp [lookupKey]
  | cons x xs ih =>
    by_cases hx : x = r
    · simp [lookupKey, hx]
    · simp [lookupKey, hx, ih, Ne.symm hx]

lemma lookupKey_initTasks {members : List TeamMember} {r : String}
    (h : r ∈ members.map TeamMember.role) :
    lookupKey r (initTasks members) = some [] := by
  rw [initTasks, lookupKey_pairNil, if_pos (mem_dictFromKeys.mpr h)]

lemma keys_initTasks (members : List TeamMember) :
    (initTasks members).map Prod.fst = dictFromKeys (members.map TeamMember.role) := by
  simp [initTasks, Function.comp_def]

lemma lookupKey_analyze {members : List TeamMember} {r : String}
    (responses : List (Option (List (String × List String))))
    (h : r ∈ members.map TeamMember.role) :
    lookupKey r (analyze_and_generate_tasks members responses) =
      some (dictFromKeys (accumulatedTasks r responses)) := by
  have h1 : lookupKey r (initTasks members) = some [] := lookupKey_initTasks h
  have h2 := lookupKey_processChunks responses _ _ _ h1
  have h3 := lookupKey_dedupePass members _ _ _ h2
  rw [analyze_and_generate_tasks, h3, if_pos h]
  rfl

lemma keys_analyze (members : List TeamMember)
    (responses : List (Option (List (String × List String)))) :
    (analyze_and_generate_tasks members responses).map Prod.fst =
      dictFromKeys (members.map TeamMember.role) := by
  rw [analyze_and_generate_tasks, keys_dedupePass, keys_processChunks, keys_initTasks]

/-! ### Lemmas about the chunking loop -/

lemma drop_pySlice (text : List Char) (ov : Nat) {s : Int} (hs : 0 ≤ s) (e : Int) :
    (pySlice text s e).drop ov = pySlice text (s + (ov : Int)) e := by
  have hnorm_s : pyNorm text.length s = min s.toNat text.length := by
    unfold pyNorm
    rw [if_neg (by omega)]
  have hnorm_so : pyNorm text.length (s + (ov : Int)) = min (s.toNat + ov) text.length := by
    unfold pyNorm
    rw [if_neg (by omega)]
    congr 1
    omega
  unfold pySlice
  rw [List.drop_drop, hnorm_s, hnorm_so]
  by_cases hc : s.toNat + ov ≤ text.length
  · congr 1
    omega
  · have hlen : (text.take (pyNorm text.length e)).length ≤ text.length := by
      rw [List.length_take]
      omega
    rw [List.drop_eq_nil_of_le (by omega), List.drop_eq_nil_of_le (by omega)]

lemma pySlice_glue (text : List Char) {x y : Int} (hx : 0 ≤ x) (hxy : x ≤ y) :
    pySlice text 0 x ++ pySlice text x y = pySlice text 0 y := by
  have h0 : pyNorm text.length 0 = 0 := by
    unfold pyNorm
    simp
  have hmono : pyNorm text.length x ≤ pyNorm text.length y := by
    unfold pyNorm
    rw [if_neg (by omega), if_neg (by omega)]
    omega
  unfold pySlice
  rw [h0, List.drop_zero, List.drop_zero]
  have hx' : List.take (pyNorm text.length x) text =
      List.take (pyNorm text.length x) (List.take (pyNorm text.length y) text) := by
    rw [List.take_take, min_eq_left hmono]
  rw [hx']
  exact List.take_append_drop _ _

lemma pySlice_all (text : List Char) {y : Int} (hy : (text.length : Int) ≤ y) :
    pySlice text 0 y = text := by
  have h1 : pyNorm text.length y = text.length := by
    unfold pyNorm
    rw [if_neg (by omega)]
    omega
  have h2 : pyNorm text.length 0 = 0 := by
    unfold pyNorm
    simp
  rw [pySlice, h1, h2, List.drop_zero, List.take_length]

lemma chunkEnd_ge (text : List Char) (maxSize : Nat) (start : Int) :
    start + (maxSize : Int) - 198 ≤ chunkEnd text maxSize start := by
  simp only [chunkEnd]
  split_ifs with h1 h2 <;> omega

lemma reconTail_append (ov : Nat) (l : List (List Char)) (c : List Char) :
    reconTail ov (l ++ [c]) = reconTail ov l ++ c.drop ov := by
  induction l with
  | nil => simp [reconTail]
  | cons d ds ih => simp [reconTail, ih]

lemma reconstructChunks_append (ov : Nat) {l : List (List Char)} (hne : l ≠ [])
    (c : List Char) :
    reconstructChunks ov (l ++ [c]) = reconstructChunks ov l ++ c.drop ov := by
  cases l with
  | nil => exact absurd rfl hne
  | cons d ds => simp [reconstructChunks, reconTail_append]

lemma splitLoop_succ (text : List Char) (maxSize overlap fuel : Nat) (start : Int)
    (chunks : List (List Char)) :
    splitLoop text maxSize overlap (fuel + 1) start chunks =
      if start < (text.length : Int) then
        splitLoop text maxSize overlap fuel
          (chunkEnd text maxSize start - (overlap : Int))
          (chunks ++ [pySlice text start (chunkEnd text maxSize start)])
      else some chunks := rfl

lemma splitLoop_sound (text : List Char) (maxSize overlap : Nat)
    (hgap : overlap + 199 ≤ maxSize) (fuel : Nat) :
    ∀ (start : Int) (chunks : List (List Char)),
      0 ≤ start →
      (text.length : Int) - start < fuel →
      0 < fuel →
      ((chunks = [] ∧ start = 0) ∨
        (chunks ≠ [] ∧
          reconstructChunks overlap chunks = pySlice text 0 (start + (overlap : Int)))) →
      ∃ out, splitLoop text maxSize overlap fuel start chunks = some out ∧
        reconstructChunks overlap out = text := by
  induction fuel with
  | zero =>
    intro start chunks _ _ hpos _
    exact absurd hpos (lt_irrefl 0)
  | succ f ih =>
    intro start chunks h0 hf _ hinv
    rw [splitLoop_succ]
    by_cases hlt : start < (text.length : Int)
    · rw [if_pos hlt]
      have hge := chunkEnd_ge text maxSize start
      apply ih
      · omega
      · omega
      · omega
      · right
        refine ⟨by simp, ?_⟩
        have harg : chunkEnd text maxSize start - (overlap : Int) + (overlap : Int) =
            chunkEnd text maxSize start := by ring
        rcases hinv with ⟨hnil, hzero⟩ | ⟨hne, hrec⟩
        · subst hzero
          rw [hnil, List.nil_append, harg]
          simp [reconstructChunks, reconTail]
        · rw [reconstructChunks_append overlap hne, hrec,
            drop_pySlice text overlap h0, harg]
          exact pySlice_glue text (by omega) (by omega)
    · rw [if_neg hlt]
      refine ⟨chunks, rfl, ?_⟩
      rcases hinv with ⟨hnil, hzero⟩ | ⟨hne, hrec⟩
      · subst hzero
        have htext : text = [] := List.length_eq_zero.mp (by omega)
        rw [hnil, htext]
        rfl
      · rw [hrec]
        exact pySlice_all text (by omega)

lemma split_sound (text : List Char) (maxSize overlap : Nat)
    (hgap : overlap + 199 ≤ maxSize) :
    ∃ out, split_text_into_chunks text maxSize overlap = some out ∧
      reconstructChunks overlap out = text := by
  rw [split_text_into_chunks]
  by_cases hle : text.length ≤ maxSize
  · rw [if_pos hle]
    exact ⟨[text], rfl, by simp [reconstructChunks, reconTail]⟩
  · rw [if_neg hle]
    exact splitLoop_sound text maxSize overlap hgap (text.length + 1) 0 [] le_rfl
      (by omega) (by omega) (Or.inl ⟨rfl, rfl⟩)

/-! ### Lemmas about plan construction -/

lemma keys_overwrite {α : Type} (k : String) (v : α) (d : List (String × α)) :
    (d.map (fun p => if p.1 = k then (k, v) else p)).map Prod.fst = d.map Prod.fst := by
  induction d with
  | nil => rfl
  | cons p ps ih =>
    by_cases h : p.1 = k
    · simp [h, ih]
    · simp [h, ih]

lemma keys_dictInsert {α : Type} (k : String) (v : α) (d : List (String × α)) :
    (dictInsert k v d).map Prod.fst =
      if k ∈ d.map Prod.fst then d.map Prod.fst else d.map Prod.fst ++ [k] := by
  unfold dictInsert
  by_cases h : k ∈ d.map Prod.fst
  · rw [if_pos h, if_pos h, keys_overwrite]
  · rw [if_neg h, if_neg h]
    simp

lemma dictInsert_forall {α : Type} {P : String × α → Prop} (k : String) (v : α)
    {d : List (String × α)} (hd : ∀ q ∈ d, P q) (hv : P (k, v)) :
    ∀ q ∈ dictInsert k v d, P q := by
  intro q hq
  unfold dictInsert at hq
  by_cases h : k ∈ d.map Prod.fst
  · rw [if_pos h] at hq
    rcases List.mem_map.mp hq with ⟨p, hp, rfl⟩
    by_cases hpk : p.1 = k
    · simpa [hpk] using hv
    · simpa [hpk] using hd p hp
  · rw [if_neg h] at hq
    rcases List.mem_append.mp hq with h' | h'
    · exact hd q h'
    · rw [List.mem_singleton.mp h']
      exact hv

lemma keys_create_agents_go (members : List TeamMember) :
    ∀ d : List (String × CrewAgent),
      ((members.foldl (fun d m => dictInsert m.role (create_agent m) d) d).map Prod.fst) =
        (members.map TeamMember.role).foldl
          (fun a x => if x ∈ a then a else a ++ [x]) (d.map Prod.fst) := by
  induction members with
  | nil => intro d; rfl
  | cons m ms ih =>
    intro d
    rw [List.foldl_cons, List.map_cons, List.foldl_cons, ih, keys_dictInsert]

lemma keys_create_agents (members : List TeamMember) :
    (create_agents members).map Prod.fst = dictFromKeys (members.map TeamMember.role) := by
  rw [create_agents, keys_create_agents_go]
  rfl

lemma create_agents_roleInv (members : List TeamMember) :
    ∀ q ∈ create_agents members, q.2.role = q.1 := by
  rw [create_agents]
  have go : ∀ (ms : List TeamMember) (d : List (String × CrewAgent)),
      (∀ q ∈ d, q.2.role = q.1) →
      ∀ q ∈ ms.foldl (fun d m => dictInsert m.role (create_agent m) d) d,
        q.2.role = q.1 := by
    intro ms
    induction ms with
    | nil => intro d hd; exact hd
    | cons m ms' ih =>
      intro d hd
      exact ih _ (dictInsert_forall m.role (create_agent m) hd rfl)
  exact go members [] (by simp)

lemma map_role_snd {d : List (String × CrewAgent)} (h : ∀ q ∈ d, q.2.role = q.1) :
    (d.map Prod.snd).map CrewAgent.role = d.map Prod.fst := by
  induction d with
  | nil => rfl
  | cons p ps ih =>
    simp only [List.map_cons]
    rw [h p (List.mem_cons_self _ _), ih (fun q hq => h q (List.mem_cons_of_mem _ hq))]

lemma keys_assign_tasks_go (agents : List (String × CrewAgent))
    (ts : List (String × List String)) :
    ∀ d : List (String × List CrewTask),
      ((ts.foldl
        (fun d p =>
          if p.1 ∈ agents.map Prod.fst then dictInsert p.1 (p.2.map (mkCrewTask p.1)) d
          else d) d).map Prod.fst) =
        ((ts.map Prod.fst).filter
            (fun r => decide (r ∈ agents.map Prod.fst))).foldl
          (fun a x => if x ∈ a then a else a ++ [x]) (d.map Prod.fst) := by
  induction ts with
  | nil => intro d; rfl
  | cons p ps ih =>
    intro d
    by_cases hp : p.1 ∈ agents.map Prod.fst
    · rw [List.foldl_cons, if_pos hp, ih, keys_dictInsert]
      simp only [List.map_cons, List.filter_cons, hp, decide_True, if_true,
        List.foldl_cons]
    · rw [List.foldl_cons, if_neg hp, ih]
      simp only [List.map_cons, List.filter_cons, hp, decide_False,
        Bool.false_eq_true, if_false]

lemma keys_assign_tasks (agents : List (String × CrewAgent))
    (ts : List (String × List String)) :
    (assign_tasks agents ts).map Prod.fst =
      dictFromKeys
        ((ts.map Prod.fst).filter (fun r => decide (r ∈ agents.map Prod.fst))) := by
  rw [assign_tasks, keys_assign_tasks_go]
  rfl

lemma assign_tasks_forall {P : String × List CrewTask → Prop}
    (agents : List (String × CrewAgent)) (ts : List (String × List String))
    (hval : ∀ p ∈ ts, P (p.1, p.2.map (mkCrewTask p.1))) :
    ∀ q ∈ assign_tasks agents ts, P q := by
  rw [assign_tasks]
  have go : ∀ (l : List (String × List String)) (d : List (String × List CrewTask)),
      (∀ p ∈ l, P (p.1, p.2.map (mkCrewTask p.1))) →
      (∀ q ∈ d, P q) →
      ∀ q ∈ l.foldl
        (fun d p =>
          if p.1 ∈ agents.map Prod.fst then dictInsert p.1 (p.2.map (mkCrewTask p.1)) d
          else d) d, P q := by
    intro l
    induction l with
    | nil => intro d _ hd; exact hd
    | cons p ps ih =>
      intro d hl hd
      rw [List.foldl_cons]
      by_cases hp : p.1 ∈ agents.map Prod.fst
      · rw [if_pos hp]
        exact ih _ (fun q hq => hl q (List.mem_cons_of_mem _ hq))
          (dictInsert_forall _ _ hd (hl p (List.mem_cons_self _ _)))
      · rw [if_neg hp]
        exact ih _ (fun q hq => hl q (List.mem_cons_of_mem _ hq)) hd
  exact go ts [] hval (by simp)

lemma get_all_tasks_eq_nil {d : List (String × List CrewTask)}
    (h : ∀ q ∈ d, q.2 = []) : get_all_tasks d = [] := by
  induction d with
  | nil => rfl
  | cons p ps ih =>
    rw [get_all_tasks, h p (List.mem_cons_self _ _), List.nil_append]
    exact ih (fun q hq => h q (List.mem_cons_of_mem _ hq))

/-! ### Lemmas about the status tracker -/

lemma setStatus_statuses {d : List (String × RoleStatus)} (r s : String)
    (hs : s ∈ handlerStatusStrings)
    (hd : ∀ q ∈ d, q.2.status ∈ handlerStatusStrings) :
    ∀ q ∈ setStatus r s d, q.2.status ∈ handlerStatusStrings := by
  intro q hq
  rcases List.mem_map.mp hq with ⟨p, hp, rfl⟩
  by_cases h : p.1 = r
  · simpa [h] using hs
  · simpa [h] using hd p hp

lemma setStatusTask_statuses {d : List (String × RoleStatus)} (r s : String)
    (t : Option String) (hs : s ∈ handlerStatusStrings)
    (hd : ∀ q ∈ d, q.2.status ∈ handlerStatusStrings) :
    ∀ q ∈ setStatusTask r s t d, q.2.status ∈ handlerStatusStrings := by
  intro q hq
  rcases List.mem_map.mp hq with ⟨p, hp, rfl⟩
  by_cases h : p.1 = r
  · simpa [h] using hs
  · simpa [h] using hd p hp

lemma emitUpdate_statuses {d : List (String × RoleStatus)} (msg : String)
    (hd : ∀ q ∈ d, q.2.status ∈ handlerStatusStrings) :
    ∀ q ∈ emitUpdate d msg, q.2.status ∈ handlerStatusStrings := by
  unfold emitUpdate
  split_ifs with h1 h2 h3
  · exact setStatus_statuses _ _ (by simp [handlerStatusStrings]) hd
  · exact setStatusTask_statuses _ _ _ (by simp [handlerStatusStrings]) hd
  · exact setStatus_statuses _ _ (by simp [handlerStatusStrings]) hd
  · exact hd

lemma trackMessages_statuses (roles : List String) (msgs : List String) :
    ∀ q ∈ trackMessages roles msgs, q.2.status ∈ handlerStatusStrings := by
  rw [trackMessages]
  have go : ∀ (l : List String) (d : List (String × RoleStatus)),
      (∀ q ∈ d, q.2.status ∈ handlerStatusStrings) →
      ∀ q ∈ l.foldl emitUpdate d, q.2.status ∈ handlerStatusStrings := by
    intro l
    induction l with
    | nil => intro d hd; exact hd
    | cons msg rest ih =>
      intro d hd
      exact ih _ (emitUpdate_statuses msg hd)
  apply go
  intro q hq
  rcases List.mem_map.mp hq with ⟨r, hr, rfl⟩
  simp [handlerStatusStrings]

/-! ### Lemmas equating the code's chunking with the 200-window spec form -/

lemma chunkEndLookback_200 (text : List Char) (maxSize : Nat) (start : Int) :
    chunkEndLookback 200 text maxSize start = chunkEnd text maxSize start := rfl

lemma splitLoopLookback_succ (w : Nat) (text : List Char) (maxSize overlap fuel : Nat)
    (start : Int) (chunks : List (List Char)) :
    splitLoopLookback w text maxSize overlap (fuel + 1) start chunks =
      if start < (text.length : Int) then
        splitLoopLookback w text maxSize overlap fuel
          (chunkEndLookback w text maxSize start - (overlap : Int))
          (chunks ++ [pySlice text start (chunkEndLookback w text maxSize start)])
      else some chunks := rfl

lemma splitLoopLookback_200 (text : List Char) (maxSize overlap : Nat) (fuel : Nat) :
    ∀ (start : Int) (chunks : List (List Char)),
      splitLoopLookback 200 text maxSize overlap fuel start chunks =
        splitLoop text maxSize overlap fuel start chunks := by
  induction fuel with
  | zero => intro start chunks; rfl
  | succ f ih =>
    intro start chunks
    rw [splitLoopLookback_succ, splitLoop_succ, chunkEndLookback_200]
    by_cases h : start < (text.length : Int)
    · rw [if_pos h, if_pos h, ih]
    · rw [if_neg h, if_neg h]

lemma split_lookback_200 (text : List Char) (maxSize overlap : Nat) :
    split_lookback 200 text maxSize overlap = split_text_into_chunks text maxSize overlap := by
  rw [split_lookback, split_text_into_chunks]
  by_cases h : text.length ≤ maxSize
  · rw [if_pos h, if_pos h]
  · rw [if_neg h, if_neg h, splitLoopLookback_200]

/-! ### Lemmas about the result records -/

lemma lookup_map_entries {α β : Type} (g : String × α → β) (role : String)
    (d : List (String × α)) (h : role ∈ d.map Prod.fst) :
    ∃ p : String × α, p.1 = role ∧
      lookupKey role (d.map (fun q => (q.1, g q))) = some (g p) := by
  induction d with
  | nil => simp at h
  | cons q qs ih =>
    by_cases hq : q.1 = role
    · exact ⟨q, hq, by simp [lookupKey, hq]⟩
    · have h' : role ∈ qs.map Prod.fst := by
        rw [List.map_cons] at h
        rcases List.mem_cons.mp h with h'' | h''
        · exact absurd h''.symm hq
        · exact h''
      rcases ih h' with ⟨p, hp1, hp2⟩
      exact ⟨p, hp1, by simp [lookupKey, hq, hp2]⟩

lemma processChunks_filterMap (rs : List (Option (List (String × List String)))) :
    ∀ a, processChunks a rs = processChunks a ((rs.filterMap id).map some) := by
  induction rs with
  | nil => intro a; rfl
  | cons o rest ih =>
    intro a
    cases o with
    | none =>
      have hlist : ((none :: rest).filterMap id :
          List (List (String × List String))) = rest.filterMap id := by simp
      rw [hlist, processChunks_cons_none, ih]
    | some c =>
      have hlist : (((some c :: rest).filterMap id).map some :
          List (Option (List (String × List String)))) =
          some c :: (rest.filterMap id).map some := by simp
      rw [hlist, processChunks_cons_some, processChunks_cons_some, ih]

/-! ### The claims -/

set_option maxRecDepth 10000

/-- C1: for every roster, every response sequence processed in chunk index
order, and every roster role, the final task list returned by
`analyze_and_generate_tasks` is exactly the stable first-occurrence dedupe
(`dict.fromkeys`) of the raw task strings accumulated for that role across
all parsed chunks — in particular it is duplicate-free and a subsequence of
the accumulated list, so the surviving occurrences keep first-occurrence
order. -/
theorem C1_final_dedupe (members : List TeamMember)
    (responses : List (Option (List (String × List String)))) (r : String)
    (h : r ∈ members.map TeamMember.role) :
    lookupKey r (analyze_and_generate_tasks members responses) =
      some (dictFromKeys (accumulatedTasks r responses)) ∧
    (dictFromKeys (accumulatedTasks r responses)).Nodup ∧
    (dictFromKeys (accumulatedTasks r responses)).Sublist (accumulatedTasks r responses) :=
  ⟨lookupKey_analyze responses h, nodup_dictFromKeys _, sublist_dictFromKeys _⟩

/-- C1 witness: the claim's spot check — chunks `{R: [a, b]}`, `{R: [b, c]}`,
`{R: []}` give the final list `[a, b, c]` for role R. -/
theorem C1_final_dedupe_witness :
    ("R" : String) ∈ [mkTeamMember "R" "n" "d" [] []].map TeamMember.role ∧
    lookupKey "R" (analyze_and_generate_tasks [mkTeamMember "R" "n" "d" [] []]
        [some [("R", ["a", "b"])], some [("R", ["b", "c"])], some [("R", [])]]) =
      some ["a", "b", "c"] :=
  ⟨by decide,
    (C1_final_dedupe [mkTeamMember "R" "n" "d" [] []]
        [some [("R", ["a", "b"])], some [("R", ["b", "c"])], some [("R", [])]]
        "R" (by decide)).1.trans (by decide)⟩

/-- C2: when the aggregated TaskSet has an empty list for every role, the
aggregate analysis call (`analyze_sow`) reports the distinguishable failure
outcome (the `st.error` / `return False` branch, the code's realization of
EmptyResultError) instead of returning a silently successful empty result. -/
theorem C2_empty_result_failure (members : List TeamMember)
    (responses : List (Option (List (String × List String))))
    (h : ∀ p ∈ analyze_and_generate_tasks members responses, p.2 = []) :
    analyze_sow members responses = AnalyzeSowOutcome.failure := by
  have hall : (analyze_and_generate_tasks members responses).all
      (fun p => p.2.isEmpty) = true := by
    rw [List.all_eq_true]
    intro p hp
    rw [h p hp]
    rfl
  simp only [analyze_sow, hall, Bool.or_true, if_true]

/-- C2 witness: a roster with one role and no parsed chunks yields an
all-empty TaskSet, and the aggregate call reports failure. -/
theorem C2_empty_result_failure_witness :
    (∀ p ∈ analyze_and_generate_tasks [mkTeamMember "R" "n" "d" [] []] [], p.2 = []) ∧
    analyze_sow [mkTeamMember "R" "n" "d" [] []] [] = AnalyzeSowOutcome.failure :=
  ⟨by decide,
    C2_empty_result_failure [mkTeamMember "R" "n" "d" [] []] [] (by decide)⟩

/-- C3 counterexample: with roster `[R]` and an empty TaskSet the claim
demands that no Agent be created, but the constructed execution plan
contains an agent for R (and no tasks): `create_agents` creates one Agent
per roster member unconditionally and `execute_team` hands them all to the
crew. -/
theorem C3_counterexample :
    (execute_team_plan [mkTeamMember "R" "n" "d" [] []] []).agents.map CrewAgent.role
        = ["R"] ∧
    (execute_team_plan [mkTeamMember "R" "n" "d" [] []] []).tasks = [] :=
  ⟨by decide, by decide⟩

/-- C3 amended: during execution-plan construction an Agent is created for
every roster role regardless of the TaskSet (the plan's agent roles are
exactly the roster's roles in first-occurrence order); AssignedTask entries
are created only for TaskSet roles present among the agents; and a TaskSet
whose task lists are all empty contributes no task at all to the plan. -/
theorem C3_amended (members : List TeamMember)
    (tasks ts : List (String × List String)) :
    (execute_team_plan members tasks).agents.map CrewAgent.role =
      dictFromKeys (members.map TeamMember.role) ∧
    (assign_tasks (create_agents members) tasks).map Prod.fst =
      dictFromKeys ((tasks.map Prod.fst).filter
        (fun r => decide (r ∈ (create_agents members).map Prod.fst))) ∧
    (execute_team_plan members (ts.map (fun p => (p.1, ([] : List String))))).tasks
      = [] := by
  refine ⟨?_, keys_assign_tasks _ _, ?_⟩
  · show ((create_agents members).map Prod.snd).map CrewAgent.role = _
    rw [map_role_snd (create_agents_roleInv members), keys_create_agents]
  · show get_all_tasks (assign_tasks (create_agents members) _) = []
    apply get_all_tasks_eq_nil
    apply assign_tasks_forall
    intro p hp
    rcases List.mem_map.mp hp with ⟨q, -, rfl⟩
    rfl

/-- C4: with the source's parameters (`max_chunk_size = 8000`,
`overlap = 200`), for every input text the chunking succeeds and the first
chunk followed by each subsequent chunk with its first 200 characters
removed concatenates back to the original text exactly (in particular the
final chunk runs to the end of the text). -/
theorem C4_reconstruction (text : List Char) :
    ∃ chunks, split_text_into_chunks text 8000 200 = some chunks ∧
      reconstructChunks 200 chunks = text :=
  split_sound text 8000 200 (by norm_num)

/-- C5 counterexample: with `max_chunk_size = 210`, `overlap = 5` and a
250-character text whose only terminator sits 160 characters before the
first window end, the code still moves the boundary to it (its lookback is
the hardcoded 200), while a lookback window of length `overlap` would keep
the hard boundary — the two chunkings differ. -/
theorem C5_counterexample :
    (split_text_into_chunks (List.replicate 50 'a' ++ '.' :: List.replicate 199 'a')
        210 5).map (fun cs => cs.map List.length) ≠
      (split_lookback 5 (List.replicate 50 'a' ++ '.' :: List.replicate 199 'a')
        210 5).map (fun cs => cs.map List.length) := by
  decide

/-- C5 amended: each interior window end is adjusted by searching backward
within a lookback window of fixed length 200 characters, independent of the
`overlap` parameter: for every text and every parameter pair the code's
chunking equals the spec-side chunking instantiated with lookback 200. -/
theorem C5_amended (text : List Char) (maxSize overlap : Nat) :
    split_text_into_chunks text maxSize overlap =
      split_lookback 200 text maxSize overlap :=
  (split_lookback_200 text maxSize overlap).symm

/-- C6: a chunk whose structured response failed to parse is skipped without
aborting the analysis: the result over any response sequence equals the
result over just its successfully parsed chunks, with every remaining chunk
still processed in order. -/
theorem C6_parse_failure_skipped (members : List TeamMember)
    (responses : List (Option (List (String × List String)))) :
    analyze_and_generate_tasks members responses =
      analyze_and_generate_tasks members ((responses.filterMap id).map some) := by
  unfold analyze_and_generate_tasks
  rw [processChunks_filterMap]

/-- C7 counterexample: feeding the claim's six events, encoded as the log
messages the source emits (or would emit) for them, through
`StreamlitLogHandler.emit` leaves R1 at "🔄 Working" — the TaskFailed event
matches none of the handler's three patterns and the tracker has no failed
status at all — so the claimed final status R1 = Failed is wrong, while
R2 = "✅ Ready" is as claimed. -/
theorem C7_counterexample :
    trackMessages ["R1", "R2"] scenarioMessages =
      [("R1", ⟨"🔄 Working", some "t2"⟩), ("R2", ⟨"✅ Ready", none⟩)] := by
  decide

/-- C7 amended: the scenario's final statuses are R1 = Working (current task
t2; the TaskFailed event is not recognized) and R2 = Ready; moreover for
every message sequence, every status the tracker ever stores is one of
Waiting / Ready / Working / Task-Completed — a Failed status does not
exist. -/
theorem C7_amended :
    (trackMessages ["R1", "R2"] scenarioMessages =
      [("R1", ⟨"🔄 Working", some "t2"⟩), ("R2", ⟨"✅ Ready", none⟩)]) ∧
    ∀ (roles msgs : List String),
      ((trackMessages roles msgs).all
        (fun q => decide (q.2.status ∈ handlerStatusStrings))) = true := by
  constructor
  · decide
  · intro roles msgs
    rw [List.all_eq_true]
    intro q hq
    exact decide_eq_true (trackMessages_statuses roles msgs q hq)

/-- C8: the mapping returned by `analyze_and_generate_tasks` has key
sequence exactly the roster's roles (first-occurrence deduped), whatever the
responses contain, and a role outside the roster has no entry — its incoming
tasks are discarded without error. -/
theorem C8_role_keys (members : List TeamMember)
    (responses : List (Option (List (String × List String)))) :
    (analyze_and_generate_tasks members responses).map Prod.fst =
      dictFromKeys (members.map TeamMember.role) ∧
    ∀ r : String, r ∉ members.map TeamMember.role →
      lookupKey r (analyze_and_generate_tasks members responses) = none := by
  refine ⟨keys_analyze members responses, ?_⟩
  intro r hr
  apply lookupKey_eq_none
  rw [keys_analyze]
  exact fun hmem => hr (mem_dictFromKeys.mp hmem)

/-- C8 witness: a response mentioning only the unknown role X leaves the key
set at the roster role R, and X has no entry. -/
theorem C8_role_keys_witness :
    (analyze_and_generate_tasks [mkTeamMember "R" "n" "d" [] []]
        [some [("X", ["t"])]]).map Prod.fst = ["R"] ∧
    ("X" : String) ∉ [mkTeamMember "R" "n" "d" [] []].map TeamMember.role ∧
    lookupKey "X" (analyze_and_generate_tasks [mkTeamMember "R" "n" "d" [] []]
        [some [("X", ["t"])]]) = none :=
  ⟨by decide, by decide,
    (C8_role_keys [mkTeamMember "R" "n" "d" [] []] [some [("X", ["t"])]]).2 "X"
      (by decide)⟩

/-- C9 counterexample: for a concrete run, the serialized audit file's agent
entry has exactly the fields name/goal/backstory/tools — no count field at
all — and the returned record's agent entry has name/goal/backstory/tools/
assigned_tasks; neither field list is the claimed one ending in
assigned_task_count. -/
theorem C9_counterexample :
    agentFieldNames (save_results_to_json
        (create_agents [mkTeamMember "R" "n" "d" [] []]) [] "ok") "R" =
      some ["name", "goal", "backstory", "tools"] ∧
    agentFieldNames (execute_team_results [mkTeamMember "R" "n" "d" [] []] [] "ok") "R" =
      some ["name", "goal", "backstory", "tools", "assigned_tasks"] ∧
    (["name", "goal", "backstory", "tools"] ≠
      ["name", "goal", "backstory", "tools", "assigned_task_count"]) ∧
    (["name", "goal", "backstory", "tools", "assigned_tasks"] ≠
      ["name", "goal", "backstory", "tools", "assigned_task_count"]) :=
  ⟨by decide, by decide, by decide, by decide⟩

/-- C9 amended: every run's records carry the top-level fields
agents/tasks/execution_result; each agents entry of the record returned to
the caller has exactly the fields name, goal, backstory, tools,
assigned_tasks (spelled so, not assigned_task_count), and each agents entry
of the serialized audit file has only name, goal, backstory, tools — no
task-count field. -/
theorem C9_amended (members : List TeamMember)
    (tasks : List (String × List String)) (result : String) (role : String)
    (hrole : role ∈ members.map TeamMember.role) :
    objFieldNames (save_results_to_json (create_agents members) tasks result) =
      ["agents", "tasks", "execution_result"] ∧
    objFieldNames (execute_team_results members tasks result) =
      ["agents", "tasks", "execution_result"] ∧
    agentFieldNames (save_results_to_json (create_agents members) tasks result) role =
      some ["name", "goal", "backstory", "tools"] ∧
    agentFieldNames (execute_team_results members tasks result) role =
      some ["name", "goal", "backstory", "tools", "assigned_tasks"] := by
  have hrole' : role ∈ (create_agents members).map Prod.fst := by
    rw [keys_create_agents]
    exact mem_dictFromKeys.mpr hrole
  refine ⟨rfl, rfl, ?_, ?_⟩
  · have h3 : agentFieldNames (save_results_to_json (create_agents members) tasks result)
        role =
        (lookupKey role ((create_agents members).map
          (fun q => (q.1, JVal.jobj (agentEntryFile q.2))))).map objFieldNames := rfl
    rcases lookup_map_entries (fun q => JVal.jobj (agentEntryFile q.2)) role
      (create_agents members) hrole' with ⟨p, -, hp⟩
    rw [h3, hp]
    rfl
  · have h4 : agentFieldNames (execute_team_results members tasks result) role =
        (lookupKey role ((create_agents members).map
          (fun q => (q.1, JVal.jobj (agentEntryReturned q.2 q.1
            (assign_tasks (create_agents members) tasks)))))).map objFieldNames := rfl
    rcases lookup_map_entries
      (fun q => JVal.jobj (agentEntryReturned q.2 q.1
        (assign_tasks (create_agents members) tasks))) role
      (create_agents members) hrole' with ⟨p, -, hp⟩
    rw [h4, hp]
    rfl

/-- C9 amended witness: the concrete one-member run instantiates the amended
claim. -/
theorem C9_amended_witness :
    ("R" : String) ∈ [mkTeamMember "R" "n" "d" [] []].map TeamMember.role ∧
    agentFieldNames (save_results_to_json
        (create_agents [mkTeamMember "R" "n" "d" [] []]) [] "ok") "R" =
      some ["name", "goal", "backstory", "tools"] :=
  ⟨by decide,
    (C9_amended [mkTeamMember "R" "n" "d" [] []] [] "ok" "R" (by decide)).2.2.1⟩

/-- C10: `split_text_into_chunks` terminates whenever
`max_chunk_size ≥ overlap + 199` (so in particular for the defaults 8000 and
200): every iteration advances `start` by at least
`max_chunk_size − overlap − 198 ≥ 1`, because a chosen break point always
lies strictly above `end − 200`, so fuel `len(text) + 1` always suffices and
the loop produces a finite chunk list. -/
theorem C10_termination (text : List Char) (maxSize overlap : Nat)
    (h : overlap + 199 ≤ maxSize) :
    (split_text_into_chunks text maxSize overlap).isSome = true := by
  rcases split_sound text maxSize overlap h with ⟨out, hout, -⟩
  rw [hout]
  rfl

/-- C10 witness: the boundary case `max_chunk_size = 199`, `overlap = 0` on a
200-character text terminates (two chunks). -/
theorem C10_termination_witness :
    (0 : Nat) + 199 ≤ 199 ∧
    (split_text_into_chunks (List.replicate 200 'a') 199 0).isSome = true :=
  ⟨by decide, C10_termination (List.replicate 200 'a') 199 0 (by decide)⟩

end SowPipeline

